import Mathlib

/-!
Verification development for the clip-exchange core of `netclip.py`
(a network clipboard sharing application).

The embedding models the pure data/protocol logic of the program:

* `Clip` with `Clip.get_itemlabel` (menu label shortening) and
  `Clip.get_text` (wire payload truncation), `src/netclip.py` lines 54-78;
* the engine state (`clips`, `received_clips`, `clip_max_count`,
  `menu_max_width`, `last_sent`, and the two toggle booleans);
* the handlers `on_clipboard_change` (lines 202-234), `send_clip`
  (lines 267-271), `on_clip_received` (lines 273-319) and `copy_clip`
  (lines 321-325).

Python strings are modeled as `List Char`; datagram payloads as `List Nat`
(byte values).  `data.decode('utf-8')` is modeled by an explicit strict
UTF-8 decoder `decodeUtf8` (rejecting overlong forms, surrogates and
out-of-range sequences, as CPython's strict codec does); a decoding
failure is an uncaught `UnicodeDecodeError`, modeled as the
`RecvOutcome.raised` outcome of the handler.
-/

/-- Python strings are modeled as lists of unicode characters
(Python `str` indexing/slicing is by code point, not by byte). -/
abbrev Text := List Char

/-- Number of bytes of the UTF-8 encoding of one character
(as produced by Python `bytes(? , 'utf-8')`). -/
def utf8Size (c : Char) : Nat :=
  if c.toNat < 0x80 then 1
  else if c.toNat < 0x800 then 2
  else if c.toNat < 0x10000 then 3
  else 4

/-- Byte length of the UTF-8 encoding of a text. -/
def utf8ByteLen (t : Text) : Nat :=
  (t.map utf8Size).sum

/-- Model of `class Clip` (netclip.py lines 54-78): one clipboard item.
`text` is the clip content, `max_width` the configured menu label width
(`menu_max_width`, argparse `--width`, cosmetic only). -/
structure Clip where
  text : Text
  max_width : Nat
deriving DecidableEq

/-- Python `str.strip()` whitespace predicate (ASCII part; the texts in
this development contain no exotic unicode whitespace). -/
def isPySpace (c : Char) : Bool :=
  c = ' ' || c = '\t' || c = '\n' || c = '\r' || c = '\x0b' || c = '\x0c'

/-- Python `s.strip()`: remove leading and trailing whitespace. -/
def pyStrip (s : Text) : Text :=
  ((s.dropWhile isPySpace).reverse.dropWhile isPySpace).reverse

/-- Model of `self.text.replace("\n", " ").strip()` (netclip.py line 62):
the whitespace-normalized text used for menu labels. -/
def normalizeText (t : Text) : Text :=
  pyStrip (t.map fun ch => if ch = '\n' then ' ' else ch)

/-- Python slice `s[:k]` for an `int` index `k` (possibly negative):
`stop = max(len(s) + k, 0)` when `k < 0`, else `min(k, len(s))`. -/
def pySliceTo (s : Text) (k : Int) : Text :=
  if k < 0 then s.take (s.length - min s.length (-k).toNat)
  else s.take k.toNat

/-- Python slice `s[k:]` for an `int` index `k` (possibly negative):
`start = max(len(s) + k, 0)` when `k < 0`, else `min(k, len(s))`. -/
def pySliceFrom (s : Text) (k : Int) : Text :=
  if k < 0 then s.drop (s.length - min s.length (-k).toNat)
  else s.drop k.toNat

/-- Model of `Clip.get_itemlabel` (netclip.py lines 60-69): returns a shortened
label for menu item labels.  `trimmed = self.text.replace("\n"," ").strip()`;
if `len(trimmed) > self.max_width` then with
`max_width = int(self.max_width/2)-1` the label is
`trimmed[:max_width] + "…" + trimmed[-max_width:]`, else `trimmed`.
(`int(w/2)` truncates toward zero; for `w : Nat` this is `(w : Int) / 2`.) -/
def Clip.get_itemlabel (c : Clip) : Text :=
  if c.max_width < (normalizeText c.text).length then
    pySliceTo (normalizeText c.text) ((c.max_width : Int) / 2 - 1)
    ++ '…' :: pySliceFrom (normalizeText c.text) (-((c.max_width : Int) / 2 - 1))
  else normalizeText c.text

/-- Model of `Clip.get_text` (netclip.py lines 73-75): `return self.text[:1472]`.
Note this is a Python string slice: it truncates to 1472 *characters*. -/
def Clip.get_text (c : Clip) : Text :=
  c.text.take 1472

/-- The mutable state of the `NetClip` application object (netclip.py
lines 92-101 and the toggle check-menu-items of lines 243-249). -/
structure NetClipState where
  clips : List Clip
  received_clips : List Clip
  clip_max_count : Nat
  menu_max_width : Nat
  last_sent : Option Text
  autosend : Bool
  autoreceive : Bool
deriving DecidableEq

/-- A sample engine state with the default configuration
(`--count 15`, `--width 30`) and empty stores. -/
def initState : NetClipState :=
  { clips := []
    received_clips := []
    clip_max_count := 15
    menu_max_width := 30
    last_sent := none
    autosend := false
    autoreceive := false }

/-- A sample state whose stores each hold one clip (used to exercise the
head-repeat path). -/
def state8 : NetClipState :=
  { initState with
    clips := [⟨['h', 'i'], 30⟩]
    received_clips := [⟨['y', 'o'], 30⟩] }

/-- A sample state with both stores full at capacity 2. -/
def state6 : NetClipState :=
  { initState with
    clips := [⟨['a'], 30⟩, ⟨['b'], 30⟩]
    received_clips := [⟨['a'], 30⟩, ⟨['b'], 30⟩]
    clip_max_count := 2 }

/-- A sample state whose stores hold three distinct clips. -/
def state7 : NetClipState :=
  { initState with
    clips := [⟨['a'], 30⟩, ⟨['b'], 30⟩, ⟨['c'], 30⟩]
    received_clips := [⟨['a'], 30⟩, ⟨['b'], 30⟩, ⟨['c'], 30⟩] }

/-- Model of `list.remove(x)` where equality is `Clip.__eq__` (text equality):
remove the first element whose text equals `t`. -/
def pyRemoveFirst (t : Text) : List Clip → List Clip
  | [] => []
  | c :: cs => if c.text = t then cs else c :: pyRemoveFirst t cs

/-- The duplicate-removal loop (netclip.py lines 216-219 / 291-294):

    for clip in self.clips:
        if text == clip:
            self.clips.remove(clip)

Python's list iterator keeps a cursor `i`; each step reads the element at
position `i` of the *current* list, then increments `i`; a matching
element triggers `list.remove`, which deletes the first element with
equal text.  `fuel` bounds the number of iterations (the cursor strictly
approaches the (non-increasing) list length, so `l.length - i` steps
always suffice; see `removeLoop`). -/
def removeLoopAux (t : Text) : Nat → List Clip → Nat → List Clip
  | 0, l, _ => l
  | fuel + 1, l, i =>
    if h : i < l.length then
      if (l.get ⟨i, h⟩).text = t then
        removeLoopAux t fuel (pyRemoveFirst t l) (i + 1)
      else
        removeLoopAux t fuel l (i + 1)
    else l

/-- The duplicate-removal loop started with cursor `i` on list `l`. -/
def removeLoop (t : Text) (l : List Clip) (i : Nat) : List Clip :=
  removeLoopAux t (l.length - i) l i

/-- Result of `on_clipboard_change`: the new engine state, the handler's
return value, the payload given to `sock.sendto` (if `send_clip` ran),
and whether `fill_menu` ran. -/
structure ChangeResult where
  state : NetClipState
  ret : Bool
  sent : Option Text
  menuUpdated : Bool

/-- How `on_clip_received` finished: either an uncaught exception
(`UnicodeDecodeError` from `data.decode('utf-8')`) escaped the handler,
or it returned a boolean to the GLib io watch. -/
inductive RecvOutcome where
  | raised : RecvOutcome
  | returned : Bool → RecvOutcome
deriving DecidableEq

/-- Result of `on_clip_received`: the new engine state, the outcome, whether
a desktop notification was shown, the text handed to the destination
clipboard by `copy_clip` (if autoreceive was active), and whether
`fill_menu` ran. -/
structure RecvResult where
  state : NetClipState
  outcome : RecvOutcome
  notified : Bool
  copied : Option Text
  menuUpdated : Bool

/-- Model of `NetClip.send_clip` (netclip.py lines 267-271): sets
`self.last_sent = clip.get_text()` and sends `clip.get_text()` (UTF-8
encoded) over the socket.  Returns the new state and the text transmitted. -/
def send_clip (s : NetClipState) (clip : Clip) : NetClipState × Text :=
  ({ s with last_sent := some clip.get_text }, clip.get_text)

/-- Model of `NetClip.copy_clip` (netclip.py lines 321-325): the text handed to
`destination_clipboard.set_text(clip.get_text(), -1)`.
Note the argument is `clip.get_text()`, not `clip.text`. -/
def copy_clip (clip : Clip) : Text :=
  clip.get_text

/-- Model of `NetClip.on_clipboard_change` (netclip.py lines 202-234).
The clipboard content is `text` (`wait_for_text()`; `None` and the empty
string are both falsy in Python, modeled as the empty text).  Steps:
skip if falsy; skip if equal to `self.clips[0]`; remove duplicates;
insert a fresh `Clip` at the front; if autosend, `send_clip` it; cap the
list by popping the last element if the count exceeds
`self.clip_max_count`; update the menu; return `True`. -/
def on_clipboard_change (s : NetClipState) (text : Text) : ChangeResult :=
  if text = [] then ⟨s, false, none, false⟩
  else if s.clips.head?.map Clip.text = some text then ⟨s, false, none, false⟩
  else
    ⟨{ s with
        clips :=
          if s.clip_max_count <
              ((⟨text, s.menu_max_width⟩ : Clip) :: removeLoop text s.clips 0).length
          then ((⟨text, s.menu_max_width⟩ : Clip) :: removeLoop text s.clips 0).dropLast
          else (⟨text, s.menu_max_width⟩ : Clip) :: removeLoop text s.clips 0,
        last_sent :=
          if s.autosend then some (Clip.get_text ⟨text, s.menu_max_width⟩)
          else s.last_sent },
      true,
      if s.autosend then some (Clip.get_text ⟨text, s.menu_max_width⟩) else none,
      true⟩

/-- Strict UTF-8 decoding of a byte sequence, as performed by Python's
`bytes.decode('utf-8')`: rejects stray continuation bytes, overlong
encodings (leads 0xC0/0xC1, 0xE0 requires second byte ≥ 0xA0, 0xF0
requires second byte ≥ 0x90), surrogates (0xED limits the second byte to
≤ 0x9F) and code points above U+10FFFF (leads > 0xF4, 0xF4 limits the
second byte to ≤ 0x8F).  Returns `none` on any malformed input
(a `UnicodeDecodeError` in Python). -/
def decodeUtf8 : List Nat → Option Text
  | [] => some []
  | b1 :: rest =>
    if b1 < 0x80 then
      match decodeUtf8 rest with
      | some t => some (Char.ofNat b1 :: t)
      | none => none
    else if 0xC2 ≤ b1 ∧ b1 ≤ 0xDF then
      match rest with
      | b2 :: rest2 =>
        if 0x80 ≤ b2 ∧ b2 ≤ 0xBF then
          match decodeUtf8 rest2 with
          | some t => some (Char.ofNat ((b1 - 0xC0) * 0x40 + (b2 - 0x80)) :: t)
          | none => none
        else none
      | [] => none
    else if 0xE0 ≤ b1 ∧ b1 ≤ 0xEF then
      match rest with
      | b2 :: b3 :: rest3 =>
        if ((if b1 = 0xE0 then 0xA0 else 0x80) ≤ b2
              ∧ b2 ≤ (if b1 = 0xED then 0x9F else 0xBF))
            ∧ 0x80 ≤ b3 ∧ b3 ≤ 0xBF then
          match decodeUtf8 rest3 with
          | some t =>
            some (Char.ofNat ((b1 - 0xE0) * 0x1000 + (b2 - 0x80) * 0x40 + (b3 - 0x80)) :: t)
          | none => none
        else none
      | _ => none
    else if 0xF0 ≤ b1 ∧ b1 ≤ 0xF4 then
      match rest with
      | b2 :: b3 :: b4 :: rest4 =>
        if ((if b1 = 0xF0 then 0x90 else 0x80) ≤ b2
              ∧ b2 ≤ (if b1 = 0xF4 then 0x8F else 0xBF))
            ∧ (0x80 ≤ b3 ∧ b3 ≤ 0xBF) ∧ 0x80 ≤ b4 ∧ b4 ≤ 0xBF then
          match decodeUtf8 rest4 with
          | some t =>
            some (Char.ofNat ((b1 - 0xF0) * 0x40000 + (b2 - 0x80) * 0x1000
                    + (b3 - 0x80) * 0x40 + (b4 - 0x80)) :: t)
          | none => none
        else none
      | _ => none
    else none

/-- Model of `NetClip.on_clip_received` (netclip.py lines 273-319).  Steps:
`text = data.decode('utf-8')` -- there is no `try`/`except`, so a
decoding failure raises out of the handler (`RecvOutcome.raised`);
return `True` if `self.last_sent == text` (own echo); return `False` if
`text` is falsy; return `False` if `text` equals `self.received_clips[0]`;
remove duplicates; build the `Clip`; if autoreceive, `copy_clip` it; show
a notification (in both branches); insert at the front; cap the list;
update the menu; return `True`. -/
def on_clip_received (s : NetClipState) (data : List Nat) : RecvResult :=
  match decodeUtf8 data with
  | none => ⟨s, .raised, false, none, false⟩
  | some text =>
    if s.last_sent = some text then ⟨s, .returned true, false, none, false⟩
    else if text = [] then ⟨s, .returned false, false, none, false⟩
    else if s.received_clips.head?.map Clip.text = some text then
      ⟨s, .returned false, false, none, false⟩
    else
      ⟨{ s with
          received_clips :=
            if s.clip_max_count <
                ((⟨text, s.menu_max_width⟩ : Clip) :: removeLoop text s.received_clips 0).length
            then ((⟨text, s.menu_max_width⟩ : Clip) :: removeLoop text s.received_clips 0).dropLast
            else (⟨text, s.menu_max_width⟩ : Clip) :: removeLoop text s.received_clips 0 },
        .returned true, true,
        if s.autoreceive then some (Clip.get_text ⟨text, s.menu_max_width⟩) else none,
        true⟩

/-- An input event for the engine: a local clipboard change (with the
clipboard's text content) or an arriving datagram (raw bytes). -/
inductive Ev where
  | change : Text → Ev
  | recv : List Nat → Ev

/-- Apply one event to the engine state. -/
def stepEv (s : NetClipState) (e : Ev) : NetClipState :=
  match e with
  | .change t => (on_clipboard_change s t).state
  | .recv d => (on_clip_received s d).state

/-- Run a sequence of events from a starting state. -/
def runEv (s : NetClipState) (evs : List Ev) : NetClipState :=
  evs.foldl stepEv s

/-- The ClipStore invariant: at most `N` entries, and no two entries
with equal text (`Clip` equality is text equality). -/
def storeInv (N : Nat) (l : List Clip) : Prop :=
  l.length ≤ N ∧ l.Pairwise (fun a b => a.text ≠ b.text)

/-! ### Lemmas about the duplicate-removal loop -/

theorem pyRemoveFirst_sublist (t : Text) (l : List Clip) : List.Sublist (pyRemoveFirst t l) l := by
  induction l with
  | nil => simp [pyRemoveFirst]
  | cons c cs ih =>
    rw [pyRemoveFirst]
    split
    · exact List.sublist_cons_self c cs
    · exact List.Sublist.cons₂ c ih

theorem pyRemoveFirst_noMatch (t : Text) (l : List Clip)
    (hp : l.Pairwise (fun a b => a.text ≠ b.text)) :
    ∀ c ∈ pyRemoveFirst t l, c.text ≠ t := by
  induction l with
  | nil => simp [pyRemoveFirst]
  | cons c cs ih =>
    rw [pyRemoveFirst]
    rcases List.pairwise_cons.mp hp with ⟨hhead, htail⟩
    split
    · next hc =>
      intro b hb hbt
      exact hhead b hb (by rw [hc, hbt])
    · next hc =>
      intro b hb
      rcases List.mem_cons.mp hb with hb | hb
      · rw [hb]; exact hc
      · exact ih htail b hb

theorem pyRemoveFirst_eq_self (t : Text) (l : List Clip)
    (h : ∀ c ∈ l, c.text ≠ t) : pyRemoveFirst t l = l := by
  induction l with
  | nil => rfl
  | cons c cs ih =>
    rw [pyRemoveFirst, if_neg (h c (List.mem_cons_self c cs))]
    rw [ih fun b hb => h b (List.mem_cons_of_mem c hb)]

theorem pyRemoveFirst_length (t : Text) (l : List Clip)
    (h : ∃ c ∈ l, c.text = t) : (pyRemoveFirst t l).length + 1 = l.length := by
  induction l with
  | nil => simp at h
  | cons c cs ih =>
    rw [pyRemoveFirst]
    split
    · simp
    · next hc =>
      obtain ⟨x, hx, hxt⟩ := h
      rcases List.mem_cons.mp hx with hx | hx
      · exact absurd (hx ▸ hxt) hc
      · simp only [List.length_cons]
        rw [← ih ⟨x, hx, hxt⟩]

theorem removeLoopAux_noMatch (t : Text) (fuel : Nat) :
    ∀ (l : List Clip) (i : Nat), (∀ c ∈ l, c.text ≠ t) →
      removeLoopAux t fuel l i = l := by
  induction fuel with
  | zero => intro l i _; rfl
  | succ fuel ih =>
    intro l i h
    rw [removeLoopAux]
    split
    · next hi =>
      rw [if_neg (h _ (l.get_mem i hi))]
      exact ih l (i + 1) h
    · rfl

theorem removeLoop_noMatch (t : Text) (l : List Clip) (i : Nat)
    (h : ∀ c ∈ l, c.text ≠ t) : removeLoop t l i = l :=
  removeLoopAux_noMatch t (l.length - i) l i h

theorem removeLoopAux_eq_pyRemoveFirst (t : Text) (fuel : Nat) :
    ∀ (l : List Clip) (i : Nat), l.length ≤ i + fuel →
      l.Pairwise (fun a b => a.text ≠ b.text) →
      (∀ c ∈ l.take i, c.text ≠ t) →
      removeLoopAux t fuel l i = pyRemoveFirst t l := by
  induction fuel with
  | zero =>
    intro l i hfuel hp htake
    have hall : ∀ c ∈ l, c.text ≠ t := by
      intro c hc
      exact htake c (by rwa [List.take_of_length_le (by omega)])
    rw [removeLoopAux, pyRemoveFirst_eq_self t l hall]
  | succ fuel ih =>
    intro l i hfuel hp htake
    rw [removeLoopAux]
    split
    · next hi =>
      split
      · next hmatch =>
        exact removeLoopAux_noMatch t fuel _ (i + 1) (pyRemoveFirst_noMatch t l hp)
      · next hmatch =>
        refine ih l (i + 1) (by omega) hp ?_
        intro c hc
        rw [List.take_succ] at hc
        rcases List.mem_append.mp hc with hc | hc
        · exact htake c hc
        · have : l[i]? = some (l.get ⟨i, hi⟩) := by
            rw [List.getElem?_eq_getElem hi]; rfl
          rw [this] at hc
          simp only [Option.toList_some, List.mem_singleton] at hc
          rw [hc]; exact hmatch
    · next hi =>
      have hall : ∀ c ∈ l, c.text ≠ t := by
        intro c hc
        exact htake c (by rwa [List.take_of_length_le (by omega)])
      rw [pyRemoveFirst_eq_self t l hall]

theorem removeLoop_eq_pyRemoveFirst (t : Text) (l : List Clip)
    (hp : l.Pairwise (fun a b => a.text ≠ b.text)) :
    removeLoop t l 0 = pyRemoveFirst t l :=
  removeLoopAux_eq_pyRemoveFirst t l.length l 0 (by omega) hp (by simp)

/-! ### Preservation of the store invariant by one record operation -/

theorem storeInv_record (N w : Nat) (t : Text) (l : List Clip)
    (hinv : storeInv N l) :
    storeInv N
      (if N < ((⟨t, w⟩ : Clip) :: removeLoop t l 0).length
       then ((⟨t, w⟩ : Clip) :: removeLoop t l 0).dropLast
       else (⟨t, w⟩ : Clip) :: removeLoop t l 0) := by
  obtain ⟨hlen, hp⟩ := hinv
  have hre : removeLoop t l 0 = pyRemoveFirst t l := removeLoop_eq_pyRemoveFirst t l hp
  have hsub : List.Sublist (pyRemoveFirst t l) l := pyRemoveFirst_sublist t l
  have hplen : (pyRemoveFirst t l).length ≤ l.length := hsub.length_le
  have hpp : (pyRemoveFirst t l).Pairwise (fun a b => a.text ≠ b.text) :=
    hp.sublist hsub
  have hnm : ∀ c ∈ pyRemoveFirst t l, c.text ≠ t := pyRemoveFirst_noMatch t l hp
  have hp1 : ((⟨t, w⟩ : Clip) :: pyRemoveFirst t l).Pairwise
      (fun a b => a.text ≠ b.text) := by
    refine List.pairwise_cons.mpr ⟨?_, hpp⟩
    intro b hb hEq
    exact hnm b hb hEq.symm
  rw [hre]
  split
  · next hcap =>
    constructor
    · rw [List.length_dropLast]
      simp only [List.length_cons]
      omega
    · exact hp1.sublist (List.dropLast_sublist _)
  · next hcap =>
    exact ⟨by omega, hp1⟩

/-! ### Byte-length helper -/

theorem utf8ByteLen_ascii (t : Text) (h : ∀ ch ∈ t, utf8Size ch = 1) :
    utf8ByteLen t = t.length := by
  induction t with
  | nil => rfl
  | cons c cs ih =>
    have hc := h c (List.mem_cons_self c cs)
    have hcs := ih fun b hb => h b (List.mem_cons_of_mem c hb)
    simp only [utf8ByteLen, List.map_cons, List.sum_cons, List.length_cons] at *
    omega

/-- C1 counterexample: the claim says the wire payload of *every* clip is
at most 1472 bytes, but `get_text` truncates to 1472 *characters*
(`self.text[:1472]` is a Python string slice).  A clip of 1473 euro signs
(3 UTF-8 bytes each) has a wire payload of 1472 characters = 4416 bytes,
which exceeds 1472 bytes. -/
theorem c1_counterexample :
    1472 < utf8ByteLen ((Clip.mk (List.replicate 1473 '€') 30).get_text) := by
  have h : utf8ByteLen ((Clip.mk (List.replicate 1473 '€') 30).get_text)
      = min 1472 1473 * utf8Size '€' := by
    show utf8ByteLen ((List.replicate 1473 '€').take 1472) = _
    rw [List.take_replicate, utf8ByteLen, List.map_replicate, List.sum_replicate,
      smul_eq_mul]
  rw [h]
  have h3 : utf8Size '€' = 3 := by decide
  rw [h3]
  norm_num

/-- C1 (amended): for every Clip the wire payload `get_text` is the text
truncated to at most 1472 *characters*; whenever every character is
ASCII (one UTF-8 byte) the payload's byte length is
`min (text length) 1472`, hence at most 1472 bytes and exactly 1472
bytes for a 2000-character ASCII text; and truncation is deterministic
and idempotent (re-truncating the payload yields the same payload). -/
theorem c1_wire_payload_char_truncation (c : Clip) :
    c.get_text = c.text.take 1472
    ∧ c.get_text.length ≤ 1472
    ∧ ((∀ ch ∈ c.text, utf8Size ch = 1) →
        utf8ByteLen c.get_text = min c.text.length 1472)
    ∧ (Clip.mk c.get_text c.max_width).get_text = c.get_text := by
  refine ⟨rfl, ?_, ?_, ?_⟩
  · show (c.text.take 1472).length ≤ 1472
    rw [List.length_take]
    omega
  · intro h
    have hall : ∀ ch ∈ c.text.take 1472, utf8Size ch = 1 := fun ch hch =>
      h ch (List.take_subset 1472 c.text hch)
    show utf8ByteLen (c.text.take 1472) = min c.text.length 1472
    rw [utf8ByteLen_ascii _ hall, List.length_take]
    omega
  · show (c.text.take 1472).take 1472 = c.text.take 1472
    rw [List.take_take]
    norm_num

/-- C1 witness: the 2000-ASCII-character clip from the spec: every
character is one byte, and the wire payload is exactly 1472 bytes. -/
theorem c1_wire_payload_char_truncation_witness :
    (∀ ch ∈ List.replicate 2000 'a', utf8Size ch = 1)
    ∧ utf8ByteLen ((Clip.mk (List.replicate 2000 'a') 30).get_text) = 1472 := by
  have h : ∀ ch ∈ List.replicate 2000 'a', utf8Size ch = 1 := by
    intro ch hch
    rw [List.eq_of_mem_replicate hch]
    decide
  refine ⟨h, ?_⟩
  have h2 := (c1_wire_payload_char_truncation (Clip.mk (List.replicate 2000 'a') 30)).2.2.1 h
  rw [h2]
  norm_num

/-- C2: a datagram whose payload is not valid UTF-8 indeed causes no
state change, but the claim's "the receive loop does not crash; the
engine continues" fails: `data.decode('utf-8')` on netclip.py line 277
has no `try`/`except`, so the `UnicodeDecodeError` escapes the handler
(modeled as `RecvOutcome.raised`), killing the GLib io watch.  Evaluated
at the failing input `b'\xff'` (the single byte 0xFF). -/
theorem c2_invalid_utf8_raises_uncaught :
    decodeUtf8 [255] = none
    ∧ on_clip_received initState [255]
      = ⟨initState, RecvOutcome.raised, false, none, false⟩ :=
  ⟨rfl, rfl⟩

/-- C3 counterexample: the claim says CopyClip passes exactly the clip's
stored text, but `copy_clip` passes `clip.get_text()` (netclip.py line
324), the 1472-character truncation: for a stored text of 1473
characters the copied text differs from the stored text. -/
theorem c3_counterexample :
    copy_clip (Clip.mk (List.replicate 1473 'a') 30)
      ≠ (Clip.mk (List.replicate 1473 'a') 30).text := by
  intro h
  have hlen := congrArg List.length h
  simp only [copy_clip, Clip.get_text, List.length_take, List.length_replicate] at hlen
  omega

/-- C3 (amended): CopyClip passes the clip's *wire payload* (the stored
text truncated to 1472 characters) to the clipboard collaborator; this
equals the full stored text exactly when the stored text has at most
1472 characters. -/
theorem c3_copy_clip_truncated (c : Clip) :
    copy_clip c = c.text.take 1472
    ∧ (c.text.length ≤ 1472 → copy_clip c = c.text) := by
  refine ⟨rfl, fun h => ?_⟩
  show c.text.take 1472 = c.text
  exact List.take_of_length_le h

/-- C3 witness: for a short clip the copied text is the stored text. -/
theorem c3_copy_clip_truncated_witness :
    (Clip.mk ['h', 'i'] 30).text.length ≤ 1472
    ∧ copy_clip (Clip.mk ['h', 'i'] 30) = (Clip.mk ['h', 'i'] 30).text :=
  ⟨by decide, (c3_copy_clip_truncated _).2 (by decide)⟩

/-- C9 counterexample: the claim's rule applied at `displayWidth = 2` to
text `"abc"` (normalized length 3 > 2) predicts prefix and suffix of
`floor(2/2) - 1 = 0` characters each, i.e. the label `"…"`; the code
(`trimmed[-0:]` is the whole string) renders `"…abc"` instead. -/
theorem c9_counterexample :
    (Clip.mk ['a', 'b', 'c'] 2).get_itemlabel
      ≠ (normalizeText ['a', 'b', 'c']).take (2 / 2 - 1)
        ++ '…' :: (normalizeText ['a', 'b', 'c']).drop
            ((normalizeText ['a', 'b', 'c']).length - (2 / 2 - 1)) := by
  decide

/-- C9 (amended): for every Clip whose configured `displayWidth` is at
least 4 (so that `floor(displayWidth/2) - 1 ≥ 1` and the Python slices
do not degenerate), the rendered label is computed from the
whitespace-normalized text: if its length exceeds `displayWidth` it is
`prefix ++ "…" ++ suffix` with prefix and suffix each taking
`floor(displayWidth/2) - 1` characters from the start and end;
otherwise the normalized text is rendered unchanged.  (For widths 0-3
the negative/zero slice bounds degenerate; see the C10 theorem.) -/
theorem c9_label_shortening (c : Clip) (hw : 4 ≤ c.max_width) :
    c.get_itemlabel =
      if c.max_width < (normalizeText c.text).length then
        (normalizeText c.text).take (c.max_width / 2 - 1)
        ++ '…' :: (normalizeText c.text).drop
            ((normalizeText c.text).length - (c.max_width / 2 - 1))
      else normalizeText c.text := by
  rw [Clip.get_itemlabel]
  by_cases hlen : c.max_width < (normalizeText c.text).length
  · rw [if_pos hlen, if_pos hlen]
    have hcast : ((c.max_width : Int) / 2 - 1) = ((c.max_width / 2 - 1 : Nat) : Int) := by
      omega
    have hk : 1 ≤ c.max_width / 2 - 1 := by omega
    rw [hcast, pySliceTo, pySliceFrom]
    rw [if_neg (by omega : ¬ ((c.max_width / 2 - 1 : Nat) : Int) < 0)]
    rw [if_pos (by omega : -((c.max_width / 2 - 1 : Nat) : Int) < 0)]
    have htoNat : (((c.max_width / 2 - 1 : Nat) : Int)).toNat = c.max_width / 2 - 1 := by
      omega
    have htoNat2 : (-(-((c.max_width / 2 - 1 : Nat) : Int))).toNat = c.max_width / 2 - 1 := by
      omega
    rw [htoNat, htoNat2]
    have hmin : min (normalizeText c.text).length (c.max_width / 2 - 1)
        = c.max_width / 2 - 1 := by omega
    rw [hmin]
  · rw [if_neg hlen, if_neg hlen]

/-- C9 witness: the spec's instance: `displayWidth = 10` and text
`"abcdefghijklmno"` render as `"abcd…lmno"`. -/
theorem c9_label_shortening_witness :
    4 ≤ (10 : Nat)
    ∧ (Clip.mk "abcdefghijklmno".toList 10).get_itemlabel = "abcd…lmno".toList := by
  constructor
  · decide
  · have h := c9_label_shortening (Clip.mk "abcdefghijklmno".toList 10) (by decide)
    rw [h]
    decide

/-- C10: for `displayWidth` 2 or 3 (`int(w/2) - 1 = 0`) and normalized
text longer than `displayWidth`, the label is the empty prefix, the
ellipsis, then the *entire* normalized text (`trimmed[-0:]` is the whole
string), so the "shortened" label is strictly longer than both
`displayWidth` and the normalized text. -/
theorem c10_degenerate_width (c : Clip)
    (hw : c.max_width = 2 ∨ c.max_width = 3)
    (hlen : c.max_width < (normalizeText c.text).length) :
    c.get_itemlabel = '…' :: normalizeText c.text
    ∧ c.max_width < c.get_itemlabel.length
    ∧ (normalizeText c.text).length < c.get_itemlabel.length := by
  have hlabel : c.get_itemlabel = '…' :: normalizeText c.text := by
    rw [Clip.get_itemlabel, if_pos hlen]
    have hmw : ((c.max_width : Int) / 2 - 1) = 0 := by
      rcases hw with h | h <;> rw [h] <;> decide
    rw [hmw]
    simp [pySliceTo, pySliceFrom]
  refine ⟨hlabel, ?_, ?_⟩ <;> rw [hlabel] <;> simp only [List.length_cons] <;> omega

/-- C10 witness: width 2 with text `"abc"`: the label is `"…abc"`. -/
theorem c10_degenerate_width_witness :
    ((Clip.mk ['a', 'b', 'c'] 2).max_width = 2 ∨ (Clip.mk ['a', 'b', 'c'] 2).max_width = 3)
    ∧ (Clip.mk ['a', 'b', 'c'] 2).max_width
        < (normalizeText (Clip.mk ['a', 'b', 'c'] 2).text).length
    ∧ (Clip.mk ['a', 'b', 'c'] 2).get_itemlabel
        = '…' :: normalizeText (Clip.mk ['a', 'b', 'c'] 2).text :=
  ⟨Or.inl rfl, by decide, (c10_degenerate_width _ (Or.inl rfl) (by decide)).1⟩

/-- Dropping the last element of a cons with a non-empty tail keeps the
head and drops the tail's last element. -/
theorem dropLast_cons_ne {α : Type} (a : α) (l : List α) (h : l ≠ []) :
    (a :: l).dropLast = a :: l.dropLast := by
  cases l with
  | nil => exact absurd rfl h
  | cons b bs => rfl

/-- C8: recording text equal to the current head entry's text is a no-op
for both handlers: the state (store contents, length and order) is
unchanged, nothing is sent or copied, no notification fires and the menu
is not rebuilt (netclip.py lines 212-214 and 287-289). -/
theorem c8_head_repeat_noop (s : NetClipState) (c0 : Clip) (cs : List Clip)
    (c0r : Clip) (csr : List Clip) (d : List Nat)
    (ho : s.clips = c0 :: cs)
    (hi : s.received_clips = c0r :: csr)
    (hdec : decodeUtf8 d = some c0r.text) :
    on_clipboard_change s c0.text = ⟨s, false, none, false⟩
    ∧ (on_clip_received s d).state = s
    ∧ (on_clip_received s d).notified = false
    ∧ (on_clip_received s d).copied = none
    ∧ (on_clip_received s d).menuUpdated = false := by
  have h1 : on_clipboard_change s c0.text = ⟨s, false, none, false⟩ := by
    rw [on_clipboard_change]
    by_cases he : c0.text = []
    · rw [if_pos he]
    · rw [if_neg he, if_pos (by rw [ho]; rfl)]
  have h2 : (on_clip_received s d).state = s
      ∧ (on_clip_received s d).notified = false
      ∧ (on_clip_received s d).copied = none
      ∧ (on_clip_received s d).menuUpdated = false := by
    simp only [on_clip_received, hdec]
    by_cases hls : s.last_sent = some c0r.text
    · rw [if_pos hls]; exact ⟨rfl, rfl, rfl, rfl⟩
    · rw [if_neg hls]
      by_cases he : c0r.text = []
      · rw [if_pos he]; exact ⟨rfl, rfl, rfl, rfl⟩
      · rw [if_neg he, if_pos (by rw [hi]; rfl)]
        exact ⟨rfl, rfl, rfl, rfl⟩
  exact ⟨h1, h2.1, h2.2.1, h2.2.2.1, h2.2.2.2⟩

/-- C8 witness: a state with heads `"hi"` (outgoing) and `"yo"`
(incoming); recording `"hi"` locally and receiving the datagram
`b"yo"` are both no-ops. -/
theorem c8_head_repeat_noop_witness :
    on_clipboard_change state8 ['h', 'i'] = ⟨state8, false, none, false⟩
    ∧ (on_clip_received state8 [121, 111]).state = state8
    ∧ (on_clip_received state8 [121, 111]).notified = false
    ∧ (on_clip_received state8 [121, 111]).copied = none
    ∧ (on_clip_received state8 [121, 111]).menuUpdated = false :=
  c8_head_repeat_noop state8 ⟨['h', 'i'], 30⟩ [] ⟨['y', 'o'], 30⟩ [] [121, 111]
    rfl rfl (by decide)

/-- C5: after `send_clip` transmits a clip (recording its wire payload in
`last_sent`), a received datagram that decodes to exactly the
transmitted text is ignored: the state is unchanged, nothing enters the
incoming store and no notification fires (netclip.py lines 279-281);
a datagram decoding to a different non-empty text is accepted:
afterwards the incoming store's head is a clip with that text. -/
theorem c5_loop_suppression (s : NetClipState) (c : Clip) (d dY : List Nat) (tY : Text)
    (hdX : decodeUtf8 d = some c.get_text)
    (hdY : decodeUtf8 dY = some tY)
    (hY0 : tY ≠ [])
    (hYX : tY ≠ c.get_text)
    (hN : 0 < s.clip_max_count) :
    (send_clip s c).1.last_sent = some c.get_text
    ∧ on_clip_received (send_clip s c).1 d
        = ⟨(send_clip s c).1, .returned true, false, none, false⟩
    ∧ (on_clip_received (send_clip s c).1 dY).state.received_clips.head?.map Clip.text
        = some tY := by
  refine ⟨rfl, ?_, ?_⟩
  · simp only [on_clip_received, hdX]
    rw [if_pos (show (send_clip s c).1.last_sent = some c.get_text from rfl)]
  · simp only [on_clip_received, send_clip, hdY]
    rw [if_neg (by simp only [Option.some.injEq]; exact fun h => hYX h.symm)]
    rw [if_neg hY0]
    by_cases hh : s.received_clips.head?.map Clip.text = some tY
    · rw [if_pos hh]
      exact hh
    · rw [if_neg hh]
      simp only []
      split
      · next hcap =>
        cases hrl : removeLoop tY s.received_clips 0 with
        | nil =>
          rw [hrl] at hcap
          simp only [List.length_cons, List.length_nil] at hcap
          omega
        | cons a as =>
          rfl
      · rfl

/-- C5 witness: send `"x"`, then receive `b"x"` (ignored) and `b"y"`
(accepted at the head of the incoming store). -/
theorem c5_loop_suppression_witness :
    (send_clip initState ⟨['x'], 30⟩).1.last_sent = some (Clip.mk ['x'] 30).get_text
    ∧ on_clip_received (send_clip initState ⟨['x'], 30⟩).1 [120]
        = ⟨(send_clip initState ⟨['x'], 30⟩).1, .returned true, false, none, false⟩
    ∧ (on_clip_received (send_clip initState ⟨['x'], 30⟩).1 [121]).state.received_clips.head?.map
        Clip.text = some ['y'] :=
  c5_loop_suppression initState ⟨['x'], 30⟩ [120] [121] ['y']
    (by decide) (by decide) (by decide) (by decide) (by decide)

/-- The head-equality guard is false when no store entry has text `t`. -/
theorem head_check_neg_of_noMatch (l : List Clip) (t : Text)
    (h : ∀ c ∈ l, c.text ≠ t) : ¬ l.head?.map Clip.text = some t := by
  intro hc
  cases l with
  | nil => simp at hc
  | cons c cs =>
    simp only [List.head?_cons, Option.map_some] at hc
    exact h c (List.mem_cons_self c cs) (Option.some.injEq _ _ ▸ hc)

/-- C6: recording a fresh non-empty text into a full store (length = N,
0 < N, text not present) evicts exactly the oldest (tail) entry,
inserts the new clip at the head, keeps every other entry in its
relative order, and leaves the length at N again — for both the
outgoing store (`on_clipboard_change`) and the incoming store
(`on_clip_received`). -/
theorem c6_full_store_eviction (s : NetClipState) (t : Text) (d : List Nat)
    (hN : 0 < s.clip_max_count)
    (ht : t ≠ [])
    (hfo : s.clips.length = s.clip_max_count)
    (hno : ∀ c ∈ s.clips, c.text ≠ t)
    (hfi : s.received_clips.length = s.clip_max_count)
    (hni : ∀ c ∈ s.received_clips, c.text ≠ t)
    (hdec : decodeUtf8 d = some t)
    (hls : s.last_sent ≠ some t) :
    (on_clipboard_change s t).state.clips
        = (⟨t, s.menu_max_width⟩ : Clip) :: s.clips.dropLast
    ∧ (on_clipboard_change s t).state.clips.length = s.clip_max_count
    ∧ (on_clip_received s d).state.received_clips
        = (⟨t, s.menu_max_width⟩ : Clip) :: s.received_clips.dropLast
    ∧ (on_clip_received s d).state.received_clips.length = s.clip_max_count := by
  have hout : (on_clipboard_change s t).state.clips
      = (⟨t, s.menu_max_width⟩ : Clip) :: s.clips.dropLast := by
    rw [on_clipboard_change, if_neg ht, if_neg (head_check_neg_of_noMatch _ _ hno)]
    show (if s.clip_max_count < _ then _ else _) = _
    rw [removeLoop_noMatch t s.clips 0 hno]
    rw [if_pos (by simp only [List.length_cons]; omega)]
    exact dropLast_cons_ne _ _ (by intro hnil; rw [hnil] at hfo; simp at hfo; omega)
  have hinc : (on_clip_received s d).state.received_clips
      = (⟨t, s.menu_max_width⟩ : Clip) :: s.received_clips.dropLast := by
    simp only [on_clip_received, hdec]
    rw [if_neg hls, if_neg ht, if_neg (head_check_neg_of_noMatch _ _ hni)]
    show (if s.clip_max_count < _ then _ else _) = _
    rw [removeLoop_noMatch t s.received_clips 0 hni]
    rw [if_pos (by simp only [List.length_cons]; omega)]
    exact dropLast_cons_ne _ _ (by intro hnil; rw [hnil] at hfi; simp at hfi; omega)
  refine ⟨hout, ?_, hinc, ?_⟩
  · rw [hout]
    simp only [List.length_cons, List.length_dropLast]
    omega
  · rw [hinc]
    simp only [List.length_cons, List.length_dropLast]
    omega

/-- C6 witness: capacity-2 stores holding `"a"`, `"b"`; recording `"c"`
(locally, and via the datagram `b"c"`) evicts `"b"` and yields
`["c", "a"]` in both stores. -/
theorem c6_full_store_eviction_witness :
    (on_clipboard_change state6 ['c']).state.clips
        = (⟨['c'], state6.menu_max_width⟩ : Clip) :: state6.clips.dropLast
    ∧ (on_clipboard_change state6 ['c']).state.clips.length = state6.clip_max_count
    ∧ (on_clip_received state6 [99]).state.received_clips
        = (⟨['c'], state6.menu_max_width⟩ : Clip) :: state6.received_clips.dropLast
    ∧ (on_clip_received state6 [99]).state.received_clips.length = state6.clip_max_count :=
  c6_full_store_eviction state6 ['c'] [99] (by decide) (by decide) (by decide)
    (by decide) (by decide) (by decide) (by decide) (by decide)

/-- C7: recording a text equal to an existing non-head entry (in a
duplicate-free store within capacity) removes that entry from its old
position and puts a clip with that text at the head: afterwards the
store is the new clip consed onto `pyRemoveFirst t store`, which
contains no entry with text `t` and is an order-preserving sublist of
the original store — so exactly one entry with text `t` remains, at the
head, with all other entries in their previous relative order.  Stated
for both handlers. -/
theorem c7_duplicate_moves_to_front (s : NetClipState) (t : Text) (d : List Nat)
    (hpo : s.clips.Pairwise (fun a b => a.text ≠ b.text))
    (hlo : s.clips.length ≤ s.clip_max_count)
    (ht : t ≠ [])
    (hmo : ∃ c ∈ s.clips.tail, c.text = t)
    (hpi : s.received_clips.Pairwise (fun a b => a.text ≠ b.text))
    (hli : s.received_clips.length ≤ s.clip_max_count)
    (hmi : ∃ c ∈ s.received_clips.tail, c.text = t)
    (hdec : decodeUtf8 d = some t)
    (hls : s.last_sent ≠ some t) :
    ((on_clipboard_change s t).state.clips
        = (⟨t, s.menu_max_width⟩ : Clip) :: pyRemoveFirst t s.clips
      ∧ (∀ c ∈ pyRemoveFirst t s.clips, c.text ≠ t)
      ∧ List.Sublist (pyRemoveFirst t s.clips) s.clips)
    ∧ ((on_clip_received s d).state.received_clips
        = (⟨t, s.menu_max_width⟩ : Clip) :: pyRemoveFirst t s.received_clips
      ∧ (∀ c ∈ pyRemoveFirst t s.received_clips, c.text ≠ t)
      ∧ List.Sublist (pyRemoveFirst t s.received_clips) s.received_clips) := by
  have head_neg : ∀ (l : List Clip), l.Pairwise (fun a b => a.text ≠ b.text) →
      (∃ c ∈ l.tail, c.text = t) → ¬ l.head?.map Clip.text = some t := by
    intro l hp hm hc
    cases l with
    | nil => simp at hc
    | cons c0 cs =>
      obtain ⟨x, hx, hxt⟩ := hm
      have hc2 : c0.text = t := by simpa using hc
      exact (List.pairwise_cons.mp hp).1 x hx (by rw [hc2, hxt])
  have no_cap : ∀ (l : List Clip), l.length ≤ s.clip_max_count →
      (∃ c ∈ l.tail, c.text = t) →
      ¬ s.clip_max_count < ((⟨t, s.menu_max_width⟩ : Clip) :: pyRemoveFirst t l).length := by
    intro l hl hm
    obtain ⟨x, hx, hxt⟩ := hm
    have := pyRemoveFirst_length t l ⟨x, List.mem_of_mem_tail hx, hxt⟩
    simp only [List.length_cons]
    omega
  have hout : (on_clipboard_change s t).state.clips
      = (⟨t, s.menu_max_width⟩ : Clip) :: pyRemoveFirst t s.clips := by
    rw [on_clipboard_change, if_neg ht, if_neg (head_neg _ hpo hmo)]
    show (if s.clip_max_count < _ then _ else _) = _
    rw [removeLoop_eq_pyRemoveFirst t s.clips hpo]
    rw [if_neg (no_cap _ hlo hmo)]
  have hinc : (on_clip_received s d).state.received_clips
      = (⟨t, s.menu_max_width⟩ : Clip) :: pyRemoveFirst t s.received_clips := by
    simp only [on_clip_received, hdec]
    rw [if_neg hls, if_neg ht, if_neg (head_neg _ hpi hmi)]
    show (if s.clip_max_count < _ then _ else _) = _
    rw [removeLoop_eq_pyRemoveFirst t s.received_clips hpi]
    rw [if_neg (no_cap _ hli hmi)]
  exact ⟨⟨hout, pyRemoveFirst_noMatch t s.clips hpo, pyRemoveFirst_sublist t s.clips⟩,
    ⟨hinc, pyRemoveFirst_noMatch t s.received_clips hpi,
      pyRemoveFirst_sublist t s.received_clips⟩⟩

/-- C7 witness: stores `["a", "b", "c"]`; recording `"b"` (locally, and
via the datagram `b"b"`) moves it to the front: `["b", "a", "c"]`. -/
theorem c7_duplicate_moves_to_front_witness :
    ((on_clipboard_change state7 ['b']).state.clips
        = (⟨['b'], state7.menu_max_width⟩ : Clip) :: pyRemoveFirst ['b'] state7.clips
      ∧ (∀ c ∈ pyRemoveFirst ['b'] state7.clips, c.text ≠ ['b'])
      ∧ List.Sublist (pyRemoveFirst ['b'] state7.clips) state7.clips)
    ∧ ((on_clip_received state7 [98]).state.received_clips
        = (⟨['b'], state7.menu_max_width⟩ : Clip) :: pyRemoveFirst ['b'] state7.received_clips
      ∧ (∀ c ∈ pyRemoveFirst ['b'] state7.received_clips, c.text ≠ ['b'])
      ∧ List.Sublist (pyRemoveFirst ['b'] state7.received_clips) state7.received_clips) :=
  c7_duplicate_moves_to_front state7 ['b'] [98]
    (by decide) (by decide) (by decide) (by decide)
    (by decide) (by decide) (by decide) (by decide) (by decide)

/-- One `on_clipboard_change` call preserves the capacity, the outgoing
store invariant, and the incoming store invariant. -/
theorem on_clipboard_change_preserves (s : NetClipState) (t : Text)
    (ho : storeInv s.clip_max_count s.clips)
    (hi : storeInv s.clip_max_count s.received_clips) :
    (on_clipboard_change s t).state.clip_max_count = s.clip_max_count
    ∧ storeInv s.clip_max_count (on_clipboard_change s t).state.clips
    ∧ storeInv s.clip_max_count (on_clipboard_change s t).state.received_clips := by
  rw [on_clipboard_change]
  by_cases he : t = []
  · rw [if_pos he]
    exact ⟨rfl, ho, hi⟩
  · rw [if_neg he]
    by_cases hh : s.clips.head?.map Clip.text = some t
    · rw [if_pos hh]
      exact ⟨rfl, ho, hi⟩
    · rw [if_neg hh]
      exact ⟨rfl, storeInv_record s.clip_max_count s.menu_max_width t s.clips ho, hi⟩

/-- One `on_clip_received` call preserves the capacity, the outgoing
store invariant, and the incoming store invariant. -/
theorem on_clip_received_preserves (s : NetClipState) (d : List Nat)
    (ho : storeInv s.clip_max_count s.clips)
    (hi : storeInv s.clip_max_count s.received_clips) :
    (on_clip_received s d).state.clip_max_count = s.clip_max_count
    ∧ storeInv s.clip_max_count (on_clip_received s d).state.clips
    ∧ storeInv s.clip_max_count (on_clip_received s d).state.received_clips := by
  cases hd : decodeUtf8 d with
  | none =>
    have hres : on_clip_received s d = ⟨s, .raised, false, none, false⟩ := by
      simp only [on_clip_received, hd]
    rw [hres]
    exact ⟨rfl, ho, hi⟩
  | some text =>
    simp only [on_clip_received, hd]
    by_cases h1 : s.last_sent = some text
    · rw [if_pos h1]
      exact ⟨rfl, ho, hi⟩
    · rw [if_neg h1]
      by_cases h2 : text = []
      · rw [if_pos h2]
        exact ⟨rfl, ho, hi⟩
      · rw [if_neg h2]
        by_cases h3 : s.received_clips.head?.map Clip.text = some text
        · rw [if_pos h3]
          exact ⟨rfl, ho, hi⟩
        · rw [if_neg h3]
          exact ⟨rfl, ho,
            storeInv_record s.clip_max_count s.menu_max_width text s.received_clips hi⟩

/-- Running any event sequence preserves the capacity and both store
invariants. -/
theorem runEv_preserves (evs : List Ev) (s : NetClipState)
    (ho : storeInv s.clip_max_count s.clips)
    (hi : storeInv s.clip_max_count s.received_clips) :
    (runEv s evs).clip_max_count = s.clip_max_count
    ∧ storeInv s.clip_max_count (runEv s evs).clips
    ∧ storeInv s.clip_max_count (runEv s evs).received_clips := by
  induction evs generalizing s with
  | nil => exact ⟨rfl, ho, hi⟩
  | cons e rest ih =>
    have hstep : (stepEv s e).clip_max_count = s.clip_max_count
        ∧ storeInv s.clip_max_count (stepEv s e).clips
        ∧ storeInv s.clip_max_count (stepEv s e).received_clips := by
      cases e with
      | change t => exact on_clipboard_change_preserves s t ho hi
      | recv d => exact on_clip_received_preserves s d ho hi
    have hrun : runEv s (e :: rest) = runEv (stepEv s e) rest := rfl
    rw [hrun]
    have ihr := ih (stepEv s e) (hstep.1 ▸ hstep.2.1) (hstep.1 ▸ hstep.2.2)
    rw [hstep.1] at ihr
    exact ihr

/-- C4: starting from empty stores, after any sequence of
local-clipboard-change and datagram-received events, each of the two
stores has length at most the configured capacity and never holds two
clips with equal text.  (The event sequence is universally quantified,
so the invariant holds after every prefix, i.e. at all times.) -/
theorem c4_store_invariants (s0 : NetClipState) (evs : List Ev)
    (h0o : s0.clips = []) (h0i : s0.received_clips = []) :
    storeInv s0.clip_max_count (runEv s0 evs).clips
    ∧ storeInv s0.clip_max_count (runEv s0 evs).received_clips := by
  have ho : storeInv s0.clip_max_count s0.clips := by
    rw [h0o]
    exact ⟨by simp, List.Pairwise.nil⟩
  have hi : storeInv s0.clip_max_count s0.received_clips := by
    rw [h0i]
    exact ⟨by simp, List.Pairwise.nil⟩
  exact ⟨(runEv_preserves evs s0 ho hi).2.1, (runEv_preserves evs s0 ho hi).2.2⟩

/-- C4 witness: from the empty default state, a concrete mixed event
sequence (clipboard changes, duplicates, datagrams, junk) leaves both
stores within capacity and duplicate-free. -/
theorem c4_store_invariants_witness :
    storeInv initState.clip_max_count
      (runEv initState
        [Ev.change ['a'], Ev.recv [98], Ev.change ['a'], Ev.recv [98],
         Ev.change ['c'], Ev.recv [99]]).clips
    ∧ storeInv initState.clip_max_count
      (runEv initState
        [Ev.change ['a'], Ev.recv [98], Ev.change ['a'], Ev.recv [98],
         Ev.change ['c'], Ev.recv [99]]).received_clips :=
  c4_store_invariants initState
    [Ev.change ['a'], Ev.recv [98], Ev.change ['a'], Ev.recv [98],
     Ev.change ['c'], Ev.recv [99]] rfl rfl
